import Mathlib

/-!
Shallow embedding of the answer-scanning and grading core of `src/grader.js`.

The repository file `grader.js` contains two versions of the module, separated
by a document marker: the first uses a marker-based scanner (`scanAnswerPairsV1`
here) and the second a single-regex scanner (`scanAnswerPairsV2`).  The
downstream functions (`parseKeyText`, `parseStudentAnswers`, `grade`) are
textually identical in the two versions, so they are embedded once, over an
abstract list of scanned pairs, and instantiated with each scanner.

JavaScript `Map`s are modelled as association lists in insertion order
(`Map.set` updates in place, otherwise appends; `Map.delete` removes);
JavaScript `Set`s of strings as duplicate-free lists in insertion order.
Character classes of the regexes are modelled over Unicode scalar values;
`\s` is the ECMAScript WhiteSpace/LineTerminator set, which is also the set
trimmed by `String.prototype.trim`.  Case conversion is modelled for ASCII
(the only letters the character classes can produce).  The `raw` field of a
scanned pair is omitted: no downstream consumer reads it.
-/

/-- ECMAScript `\s` (WhiteSpace ∪ LineTerminator); also the set removed by
`String.prototype.trim`. -/
def jsWs (c : Char) : Bool :=
  c = ' ' || c = '\t' || c = '\n' || c = '\r' || c.toNat = 11 || c.toNat = 12 ||
  c.toNat = 0xa0 || c.toNat = 0x1680 || (0x2000 ≤ c.toNat && c.toNat ≤ 0x200a) ||
  c.toNat = 0x2028 || c.toNat = 0x2029 || c.toNat = 0x202f || c.toNat = 0x205f ||
  c.toNat = 0x3000 || c.toNat = 0xfeff

/-- ASCII uppercasing, as `String.prototype.toUpperCase` acts on ASCII. -/
def asciiUpperChar (c : Char) : Char :=
  if 97 ≤ c.toNat && c.toNat ≤ 122 then Char.ofNat (c.toNat - 32) else c

/-- ASCII lowercasing, as `String.prototype.toLowerCase` acts on ASCII. -/
def asciiLowerChar (c : Char) : Char :=
  if 65 ≤ c.toNat && c.toNat ≤ 90 then Char.ofNat (c.toNat + 32) else c

/-- A Latin letter, the class `[A-Za-z]` (code points 65-90 and 97-122). -/
def latinLetter (c : Char) : Bool :=
  (65 ≤ c.toNat && c.toNat ≤ 90) || (97 ≤ c.toNat && c.toNat ≤ 122)

/-- The class `[A-Ea-e]` of the V1 letter regex (code points 65-69, 97-101). -/
def letterClassV1 (c : Char) : Bool :=
  (65 ≤ c.toNat && c.toNat ≤ 69) || (97 ≤ c.toNat && c.toNat ≤ 101)

/-- Separators recognized after the question number by the V1 marker regex:
the class `[:.)\-–—]`. -/
def sepV1 (c : Char) : Bool :=
  c = ':' || c = '.' || c = ')' || c = '-' || c.toNat = 0x2013 || c.toNat = 0x2014

/-- The class `[\s).:,\-–—]` stripped from the front of a V1 answer token. -/
def stripClassV1 (c : Char) : Bool :=
  jsWs c || c = ')' || c = '.' || c = ':' || c = ',' || c = '-' ||
  c.toNat = 0x2013 || c.toNat = 0x2014

/-- The class `[\s).,;:\-–—]` allowed after the letter in the V1 letter regex. -/
def tailClassV1 (c : Char) : Bool :=
  jsWs c || c = ')' || c = '.' || c = ',' || c = ';' || c = ':' || c = '-' ||
  c.toNat = 0x2013 || c.toNat = 0x2014

/-- Separator class `[:.)\]\-–—\.]` of the V2 regex. -/
def sepV2 (c : Char) : Bool :=
  c = ':' || c = '.' || c = ')' || c = ']' || c = '-' ||
  c.toNat = 0x2013 || c.toNat = 0x2014

/-- The V2 first-alternative lookahead classes `[\s\n\r]` ∪ `[\s).,;:\-–—]`. -/
def lookClassV2 (c : Char) : Bool :=
  jsWs c || c = ')' || c = '.' || c = ',' || c = ';' || c = ':' || c = '-' ||
  c.toNat = 0x2013 || c.toNat = 0x2014

/-- JS `trim`: whitespace removed from both ends. -/
def trimChars (l : List Char) : List Char :=
  ((l.dropWhile jsWs).reverse.dropWhile jsWs).reverse

/-- `Number.parseInt` on a non-empty run of decimal digits. -/
def digitsToNat (l : List Char) : Nat :=
  l.foldl (fun a c => a * 10 + (c.toNat - 48)) 0

/-- A scanned candidate `{question, answer, needsManualReview}` (the unused
`raw` diagnostic field is omitted). -/
structure Pair where
  question : Nat
  answer : String
  needsManualReview : Bool
deriving DecidableEq

/-- A manual-review entry `{question, answers, reasons}`; the two string
collections are JS `Set`s in insertion order. -/
structure MEntry where
  question : Nat
  answers : List String
  reasons : List String
deriving DecidableEq

/-! ### V1 (marker-based) scanner -/

/-- One match of the V1 marker regex `(\d{1,3})\s*(?:[:.)\-–—])`:
its index, the index just past the match, and the captured digits. -/
structure Marker where
  idx : Nat
  stop : Nat
  digits : List Char
deriving DecidableEq

/-- `matchAll` of the marker regex: leftmost matches, scanning resumes after
each match.  A match at a position needs a 1-3 digit run (a longer run cannot
backtrack into a separator, the following character being a digit), optional
whitespace, then a separator.  The fuel argument starts at the text length and
dominates the number of single-character advances, so it never runs out. -/
def markersV1 : Nat → List Char → Nat → List Marker
  | 0, _, _ => []
  | _ + 1, [], _ => []
  | fuel + 1, c :: rest, pos =>
    if c.isDigit then
      let ds := c :: rest.takeWhile Char.isDigit
      if ds.length ≤ 3 then
        let afterD := rest.drop (ds.length - 1)
        let w := (afterD.takeWhile jsWs).length
        match afterD.drop w with
        | s :: rest2 =>
          if sepV1 s then
            ⟨pos, pos + ds.length + w + 1, ds⟩ ::
              markersV1 fuel rest2 (pos + ds.length + w + 1)
          else markersV1 fuel rest (pos + 1)
        | [] => markersV1 fuel rest (pos + 1)
      else markersV1 fuel rest (pos + 1)
    else markersV1 fuel rest (pos + 1)

/-- Classify one candidate's trimmed answer token with the letter regex
`^([A-Ea-e])([\s).,;:\-–—]*)$` and the blank/placeholder checks of the
source: a recognized letter is uppercased, anything else keeps the raw token
(`'blank'` when empty) and is flagged for manual review. -/
def classifyV1 (q : Nat) (answer : List Char) : Pair :=
  let letterM : Option Char :=
    match answer with
    | a :: t => if letterClassV1 a && t.all tailClassV1 then some a else none
    | [] => none
  let normalized : List Char :=
    match letterM with
    | some a => [asciiUpperChar a]
    | none => answer.map asciiUpperChar
  let answerStr := String.mk answer
  let flag :=
    answerStr.isEmpty || normalized.isEmpty ||
    String.mk normalized = "?" || String.mk normalized = "X" ||
    String.mk (answer.map asciiLowerChar) = "blank" ||
    String.mk (answer.map asciiLowerChar) = "skip" ||
    letterM.isNone
  if flag then ⟨q, if answerStr.isEmpty then "blank" else answerStr, true⟩
  else ⟨q, String.mk normalized, false⟩

/-- The slice for one marker: from the end of the match to `endIdx` (the next
marker's index, or the text length), cut at the first line break, with leading
separators/whitespace stripped and the result trimmed. -/
def mkPairV1 (src : List Char) (m : Marker) (endIdx : Nat) : Pair :=
  let sliceChars := (src.drop m.stop).take (endIdx - m.stop)
  let lineChars := sliceChars.takeWhile (fun c => !(c = '\n' || c = '\r'))
  classifyV1 (digitsToNat m.digits) (trimChars (lineChars.dropWhile stripClassV1))

/-- Walk the marker list; each candidate's slice ends at the next marker's
index (`source.length` for the last). -/
def pairsFromMarkersV1 (src : List Char) : List Marker → List Pair
  | [] => []
  | [m] => [mkPairV1 src m src.length]
  | m :: m2 :: ms => mkPairV1 src m m2.idx :: pairsFromMarkersV1 src (m2 :: ms)

/-- `scanAnswerPairs`, first version (before the document separator in
`grader.js`): marker-based scan. -/
def scanAnswerPairsV1 (text : String) : List Pair :=
  let src := text.data
  if (trimChars src).isEmpty then []
  else pairsFromMarkersV1 src (markersV1 src.length src 0)

/-! ### V2 (single-regex) scanner -/

/-- A match of the V2 regex: the captured digits and letter. -/
structure MatchV2 where
  digits : List Char
  letter : Char
deriving DecidableEq

/-- Lookahead `(?=[\s\n\r]|$|[\s).,;:\-–—])` of the V2 first alternative. -/
def lookahead1V2 : List Char → Bool
  | [] => true
  | c :: _ => lookClassV2 c

/-- Lookahead `(?=[\s\n\r]|$)` of the V2 second alternative. -/
def lookahead2V2 : List Char → Bool
  | [] => true
  | c :: _ => jsWs c

/-- Try the V2 pattern
`(\d{1,3})(?:\s*[:.)\]\-–—\.]{1,3}\s*|\s+)([A-Za-z])(?=...)|(\d{1,3})\s*([A-Za-z])(?=...)`
at one position (first character `c`).  Backtracking collapses: a digit run
longer than 3 leaves a digit after the group, whitespace runs are forced
maximal (no separator or letter is whitespace), and only the full separator
run can be followed by a non-separator, so each alternative reduces to one
deterministic attempt in order. -/
def tryMatchV2 (c : Char) (rest : List Char) : Option (MatchV2 × List Char) :=
  if !c.isDigit then none else
  let ds := c :: rest.takeWhile Char.isDigit
  if 3 < ds.length then none else
  let afterD := rest.drop (ds.length - 1)
  let w1 := (afterD.takeWhile jsWs).length
  let afterW1 := afterD.drop w1
  let s := (afterW1.takeWhile sepV2).length
  let alt1a : Option (MatchV2 × List Char) :=
    if 1 ≤ s && s ≤ 3 then
      let afterSep := afterW1.drop s
      let w2 := (afterSep.takeWhile jsWs).length
      match afterSep.drop w2 with
      | l :: rest2 =>
        if latinLetter l && lookahead1V2 rest2 then some (⟨ds, l⟩, rest2) else none
      | [] => none
    else none
  match alt1a with
  | some r => some r
  | none =>
    let alt1b : Option (MatchV2 × List Char) :=
      if 1 ≤ w1 then
        match afterW1 with
        | l :: rest2 =>
          if latinLetter l && lookahead1V2 rest2 then some (⟨ds, l⟩, rest2) else none
        | [] => none
      else none
    match alt1b with
    | some r => some r
    | none =>
      match afterW1 with
      | l :: rest2 =>
        if latinLetter l && lookahead2V2 rest2 then some (⟨ds, l⟩, rest2) else none
      | [] => none

/-- `matchAll` loop of the V2 scanner: candidates in text order, all with
`needsManualReview := false` and the letter uppercased.  Fuel as in V1. -/
def scanV2Aux : Nat → List Char → List Pair
  | 0, _ => []
  | _ + 1, [] => []
  | fuel + 1, c :: rest =>
    match tryMatchV2 c rest with
    | some (m, rest2) =>
      ⟨digitsToNat m.digits, String.mk [asciiUpperChar m.letter], false⟩ ::
        scanV2Aux fuel rest2
    | none => scanV2Aux fuel rest

/-- `scanAnswerPairs`, second version (after the document separator in
`grader.js`): single comprehensive regex, then a stable ascending sort by
question number (JS `Array.prototype.sort` is stable; the stable sort is
modelled by insertion sort, which the kernel can evaluate). -/
def scanAnswerPairsV2 (text : String) : List Pair :=
  let src := text.data
  if (trimChars src).isEmpty then []
  else (scanV2Aux src.length src).insertionSort (fun a b => a.question ≤ b.question)

/-! ### JS `Map`/`Set` operations -/

/-- A JS `Map<int,string>` as its entry list in insertion order. -/
abbrev JsMap := List (Nat × String)

/-- `Map.has`. -/
def mapHas (m : JsMap) (q : Nat) : Bool := m.any (fun p => p.1 == q)

/-- `Map.get` (`none` for `undefined`). -/
def mapGet (m : JsMap) (q : Nat) : Option String :=
  (m.find? (fun p => p.1 == q)).map (·.2)

/-- `Map.set`: update in place if present, else append. -/
def mapSet (m : JsMap) (q : Nat) (a : String) : JsMap :=
  if mapHas m q then m.map (fun p => if p.1 == q then (p.1, a) else p)
  else m ++ [(q, a)]

/-- `Map.delete`. -/
def mapDelete (m : JsMap) (q : Nat) : JsMap := m.filter (fun p => p.1 != q)

/-- `new Map(entries)`: later duplicates keep the first position, last value. -/
def mapFromList (l : JsMap) : JsMap := l.foldl (fun acc p => mapSet acc p.1 p.2) []

/-- `Set.add` for strings: no-op if present, else append. -/
def setAdd (s : List String) (x : String) : List String :=
  if x ∈ s then s else s ++ [x]

/-- `new Set(l)`: deduplicate keeping first occurrences. -/
def dedupList (l : List String) : List String := l.foldl setAdd []

/-- `Set.add` for naturals (used for `attemptedQuestions`). -/
def natSetAdd (s : List Nat) (x : Nat) : List Nat :=
  if x ∈ s then s else s ++ [x]

/-- `new Set(l)` for naturals. -/
def dedupNatList (l : List Nat) : List Nat := l.foldl natSetAdd []

/-! ### Manual-review map operations -/

/-- Does the manual map have an entry for `q`? -/
def mmHas (mm : List MEntry) (q : Nat) : Bool := mm.any (fun e => e.question == q)

/-- `ensureManual`: create an empty entry for `q` unless present. -/
def ensureManual (mm : List MEntry) (q : Nat) : List MEntry :=
  if mmHas mm q then mm else mm ++ [⟨q, [], []⟩]

/-- `manualMap.get(q).reasons.add(r)`. -/
def mmAddReason (mm : List MEntry) (q : Nat) (r : String) : List MEntry :=
  mm.map (fun e => if e.question == q then { e with reasons := setAdd e.reasons r } else e)

/-- `manualMap.get(q).answers.add(a)`. -/
def mmAddAnswer (mm : List MEntry) (q : Nat) (a : String) : List MEntry :=
  mm.map (fun e => if e.question == q then { e with answers := setAdd e.answers a } else e)

/-! ### Key builder and student reconciler (identical in both versions) -/

/-- `VALID_CHOICES`. -/
def VALID_CHOICES : List String := ["A", "B", "C", "D", "E"]

/-- `VALID_CHOICES.has(a)`. -/
def validChoice (a : String) : Bool := VALID_CHOICES.contains a

/-- One iteration of the `parseKeyText` loop: skip invalid choices, record
the question unless already present. -/
def keyStep (km : JsMap) (e : Pair) : JsMap :=
  if !validChoice e.answer then km
  else if mapHas km e.question then km
  else mapSet km e.question e.answer

/-- The `parseKeyText` loop over scanned entries. -/
def keyFromEntries (entries : List Pair) : JsMap := entries.foldl keyStep []

/-- `parseKeyText` over the V1 scanner. -/
def parseKeyTextV1 (text : String) : JsMap := keyFromEntries (scanAnswerPairsV1 text)

/-- `parseKeyText` over the V2 scanner. -/
def parseKeyTextV2 (text : String) : JsMap := keyFromEntries (scanAnswerPairsV2 text)

/-- State of the `parseStudentAnswers` loop. -/
structure RState where
  answerMap : JsMap
  manualMap : List MEntry
deriving DecidableEq

/-- One iteration of the `parseStudentAnswers` loop, with its four branches
in source order: scanner-flagged, invalid choice, already under manual
review, duplicate clean answer, else record. -/
def reconStep (st : RState) (e : Pair) : RState :=
  if e.needsManualReview then
    { st with manualMap :=
        mmAddAnswer (mmAddReason (ensureManual st.manualMap e.question)
          e.question "Non-standard answer format") e.question e.answer }
  else if !validChoice e.answer then
    { st with manualMap :=
        mmAddAnswer (mmAddReason (ensureManual st.manualMap e.question)
          e.question "Answer outside A-E") e.question e.answer }
  else if mmHas st.manualMap e.question then
    { st with manualMap := mmAddAnswer st.manualMap e.question e.answer }
  else
    match mapGet st.answerMap e.question with
    | some prev =>
      { answerMap := mapDelete st.answerMap e.question,
        manualMap :=
          mmAddAnswer (mmAddAnswer (mmAddReason (ensureManual st.manualMap e.question)
            e.question "Duplicate answers provided") e.question prev) e.question e.answer }
    | none => { st with answerMap := mapSet st.answerMap e.question e.answer }

/-- Result of `parseStudentAnswers`: the clean map and the manual-review
list (each `MEntry` materializes its two sets in insertion order). -/
structure ParseResult where
  answers : JsMap
  manualReview : List MEntry
deriving DecidableEq

/-- The `parseStudentAnswers` loop over scanned entries. -/
def parseFromEntries (entries : List Pair) : ParseResult :=
  let st := entries.foldl reconStep ⟨[], []⟩
  ⟨st.answerMap, st.manualMap⟩

/-- `parseStudentAnswers` over the V1 scanner. -/
def parseStudentAnswersV1 (text : String) : ParseResult :=
  parseFromEntries (scanAnswerPairsV1 text)

/-- `parseStudentAnswers` over the V2 scanner. -/
def parseStudentAnswersV2 (text : String) : ParseResult :=
  parseFromEntries (scanAnswerPairsV2 text)

/-! ### Grading engine (identical in both versions) -/

/-- An element of the `incorrect` list. -/
structure IncRec where
  question : Nat
  correctAnswer : String
  studentAnswer : String
deriving DecidableEq

/-- The grade report.  `percent` is modelled in `ℚ` (the JS computation is
exact division guarded against a zero denominator). -/
structure Report where
  total : Nat
  correct : Nat
  incorrect : List IncRec
  incorrectCount : Nat
  missing : List Nat
  missingCount : Nat
  manualReview : List MEntry
  manualReviewCount : Nat
  denominator : Int
  percent : ℚ
  attemptedQuestions : List Nat
deriving DecidableEq

/-- Rebuilding the manual map inside `grade`:
`new Map(manualReview.map(item => [item.question, {… new Set(...) …}]))`. -/
def mmSetFresh (mm : List MEntry) (item : MEntry) : List MEntry :=
  let fresh : MEntry := ⟨item.question, dedupList item.answers, dedupList item.reasons⟩
  if mmHas mm item.question then
    mm.map (fun e => if e.question == item.question then fresh else e)
  else mm ++ [fresh]

/-- `grade`'s copy of the student's manual-review list into a `Map`. -/
def manualFromList (l : List MEntry) : List MEntry := l.foldl mmSetFresh []

/-- One iteration of `grade`'s cross-check loop: a clean answer for a
question absent from the key moves to manual review with reason
"No answer key entry for this question".  (The clean map the loop iterates
comes from a `Map` copy, so its keys are distinct and deleting the current
entry never disturbs the iteration.) -/
def crossStep (key : JsMap) (st : JsMap × List MEntry) (p : Nat × String) :
    JsMap × List MEntry :=
  if mapHas key p.1 then st
  else (mapDelete st.1 p.1,
    mmAddAnswer (mmAddReason (ensureManual st.2 p.1) p.1
      "No answer key entry for this question") p.1 p.2)

/-- One iteration of `grade`'s scoring loop over the key, accumulating
`(correct, incorrect, missing)`.  An empty-string answer is falsy in JS and
counts as missing, like an absent one. -/
def triStep (mqs : List Nat) (am : JsMap) (acc : Nat × List IncRec × List Nat)
    (kp : Nat × String) : Nat × List IncRec × List Nat :=
  if mqs.contains kp.1 then acc
  else
    match mapGet am kp.1 with
    | none => (acc.1, acc.2.1, acc.2.2 ++ [kp.1])
    | some sa =>
      if sa = "" then (acc.1, acc.2.1, acc.2.2 ++ [kp.1])
      else if sa = kp.2 then (acc.1 + 1, acc.2.1, acc.2.2)
      else (acc.1, acc.2.1 ++ [⟨kp.1, kp.2, sa⟩], acc.2.2)

/-- JS default string sort (code-unit ascending) of a `Set`'s elements. -/
def sortStrings (l : List String) : List String :=
  l.insertionSort (fun a b => ¬ b < a)

/-- The body of `grade` after its argument checks, taking the key map's
entries and the student result's fields. -/
def gradeCore (key : JsMap) (sAnswers : JsMap) (sManual : List MEntry)
    (skipMissing : Bool) : Report :=
  let answerMap0 := mapFromList sAnswers
  let manualMap0 := manualFromList sManual
  let st1 := answerMap0.foldl (crossStep key) (answerMap0, manualMap0)
  let manualQs : List Nat := st1.2.map (·.question)
  let tri := key.foldl (triStep manualQs st1.1) (0, [], [])
  let total := key.length
  let missingCount := tri.2.2.length
  let incorrectCount := tri.2.1.length
  let denominator : Int := if skipMissing then (total : Int) - (missingCount : Int) else (total : Int)
  let percent : ℚ := if 0 < denominator then (tri.1 : ℚ) / (denominator : ℚ) * 100 else 0
  let manualReview :=
    (st1.2.map (fun e => (⟨e.question, sortStrings e.answers, e.reasons⟩ : MEntry))).insertionSort
      (fun a b => a.question ≤ b.question)
  let attempted :=
    (dedupNatList (st1.1.map (·.1) ++ manualReview.map (·.question))).insertionSort
      (fun a b => a ≤ b)
  { total := total
    correct := tri.1
    incorrect := tri.2.1
    incorrectCount := incorrectCount
    missing := tri.2.2
    missingCount := missingCount
    manualReview := manualReview
    manualReviewCount := manualReview.length
    denominator := denominator
    percent := percent
    attemptedQuestions := attempted }

/-! ### `grade`'s dynamic argument checks

`grade` is called with JavaScript values; its guard rejects a key that is not
a `Map` and a student argument without an `answers` `Map`.  The universe
`Dyn` covers the value shapes the guard distinguishes.  A well-shaped call
reaches `gradeCore`; a student record whose `manualReview` is not an array
makes `studentAnswers.manualReview.map(...)` throw a `TypeError`, also an
error and not a report. -/

/-- A JavaScript value, as far as `grade`'s checks observe it. -/
inductive Dyn where
  | dmap (entries : JsMap)
  | drecord (answersField : Option Dyn) (manualReviewField : Option Dyn)
  | darr (items : List MEntry)
  | dstr (s : String)
  | dnum (n : Int)
  | dnull

/-- `grade` with its argument checks: `key instanceof Map`, then
`studentAnswers && studentAnswers.answers instanceof Map` (a falsy or
field-less value fails the same check), then the `.map` over `manualReview`. -/
def gradeChecked (key studentAnswers : Dyn) (skipMissing : Bool) :
    Except String Report :=
  match key with
  | .dmap km =>
    match studentAnswers with
    | .drecord (some (.dmap am)) mrf =>
      match mrf with
      | some (.darr l) => .ok (gradeCore km am l skipMissing)
      | _ => .error "TypeError: studentAnswers.manualReview.map is not a function"
    | _ => .error "grade expected studentAnswers from parseStudentAnswers"
  | _ => .error "grade expected key to be a Map<int, string>"

/-- The key argument shape the spec requires: a question-to-letter `Map`. -/
def isKeyMapShape (d : Dyn) : Prop := ∃ km, d = .dmap km

/-- The student argument shape the spec requires: the reconciler's output,
a record with an `answers` `Map` and a `manualReview` list. -/
def isReconcilerOutputShape (d : Dyn) : Prop :=
  ∃ am mr, d = .drecord (some (.dmap am)) (some (.darr mr))

/-! ### Predicates used by the claims -/

/-- A string that is exactly one Latin letter. -/
def isSingleLatinLetter (s : String) : Bool :=
  match s.data with
  | [c] => latinLetter c
  | _ => false

/-- The manual map holds an entry for question `q` containing answer `a` and
reason `r`. -/
def mmHasData (mm : List MEntry) (q : Nat) (a r : String) : Prop :=
  ∃ e, e ∈ mm ∧ e.question = q ∧ a ∈ e.answers ∧ r ∈ e.reasons

/-! ### Helper lemmas: Boolean and option utilities -/

lemma bool_not_true {b : Bool} (h : ¬ b = true) : b = false := by
  cases b
  · rfl
  · exact absurd rfl h

lemma mem_setAdd_of_mem {s : List String} {x y : String} (h : x ∈ s) : x ∈ setAdd s y := by
  unfold setAdd; split
  · exact h
  · exact List.mem_append_left _ h

lemma mem_setAdd_self (s : List String) (x : String) : x ∈ setAdd s x := by
  unfold setAdd; split
  · assumption
  · exact List.mem_append_right _ (List.mem_singleton_self x)

/-! ### Helper lemmas: persistence of manual-review data

Once a question's manual entry holds an answer and a reason, every later
operation of the reconciliation loop keeps them: entries are never removed
and their sets only grow. -/

lemma mmHasData_mono_map {mm : List MEntry} {q : Nat} {a r : String}
    (f : MEntry → MEntry)
    (hq : ∀ e, (f e).question = e.question)
    (ha : ∀ e s, s ∈ e.answers → s ∈ (f e).answers)
    (hr : ∀ e s, s ∈ e.reasons → s ∈ (f e).reasons)
    (h : mmHasData mm q a r) : mmHasData (mm.map f) q a r := by
  obtain ⟨e, he, hqe, hae, hre⟩ := h
  exact ⟨f e, List.mem_map_of_mem f he, by rw [hq, hqe], ha e a hae, hr e r hre⟩

lemma mmHasData_mono_addAnswer {mm : List MEntry} {q q' : Nat} {a r a' : String}
    (h : mmHasData mm q a r) : mmHasData (mmAddAnswer mm q' a') q a r := by
  unfold mmAddAnswer
  refine mmHasData_mono_map _ ?_ ?_ ?_ h
  · intro e; dsimp only; split <;> rfl
  · intro e s hs; dsimp only; split
    · exact mem_setAdd_of_mem hs
    · exact hs
  · intro e s hs; dsimp only; split <;> exact hs

lemma mmHasData_mono_addReason {mm : List MEntry} {q q' : Nat} {a r r' : String}
    (h : mmHasData mm q a r) : mmHasData (mmAddReason mm q' r') q a r := by
  unfold mmAddReason
  refine mmHasData_mono_map _ ?_ ?_ ?_ h
  · intro e; dsimp only; split <;> rfl
  · intro e s hs; dsimp only; split <;> exact hs
  · intro e s hs; dsimp only; split
    · exact mem_setAdd_of_mem hs
    · exact hs

lemma mmHasData_mono_ensure {mm : List MEntry} {q q' : Nat} {a r : String}
    (h : mmHasData mm q a r) : mmHasData (ensureManual mm q') q a r := by
  obtain ⟨e, he, hqe, hae, hre⟩ := h
  unfold ensureManual; split
  · exact ⟨e, he, hqe, hae, hre⟩
  · exact ⟨e, List.mem_append_left _ he, hqe, hae, hre⟩

lemma mmHasData_mono_reconStep {st : RState} {e : Pair} {q : Nat} {a r : String}
    (h : mmHasData st.manualMap q a r) : mmHasData (reconStep st e).manualMap q a r := by
  unfold reconStep
  split
  · exact mmHasData_mono_addAnswer (mmHasData_mono_addReason (mmHasData_mono_ensure h))
  · split
    · exact mmHasData_mono_addAnswer (mmHasData_mono_addReason (mmHasData_mono_ensure h))
    · split
      · exact mmHasData_mono_addAnswer h
      · split
        · exact mmHasData_mono_addAnswer (mmHasData_mono_addAnswer
            (mmHasData_mono_addReason (mmHasData_mono_ensure h)))
        · exact h

lemma mmHasData_mono_fold {l : List Pair} {st : RState} {q : Nat} {a r : String}
    (h : mmHasData st.manualMap q a r) :
    mmHasData (l.foldl reconStep st).manualMap q a r := by
  induction l generalizing st with
  | nil => exact h
  | cons e l ih => exact ih (mmHasData_mono_reconStep h)

lemma hasEntry_ensure (mm : List MEntry) (q : Nat) :
    ∃ e, e ∈ ensureManual mm q ∧ e.question = q := by
  unfold ensureManual; split
  · rename_i hh
    unfold mmHas at hh
    obtain ⟨e, he, heq⟩ := List.any_eq_true.mp hh
    exact ⟨e, he, by simpa using heq⟩
  · exact ⟨⟨q, [], []⟩, List.mem_append_right _ (List.mem_singleton_self _), rfl⟩

lemma mmHasData_establish {mm : List MEntry} {q : Nat} (r a : String)
    (h : ∃ e, e ∈ mm ∧ e.question = q) :
    mmHasData (mmAddAnswer (mmAddReason mm q r) q a) q a r := by
  obtain ⟨e, he, hq⟩ := h
  have h1 : ({ e with reasons := setAdd e.reasons r } : MEntry) ∈ mmAddReason mm q r := by
    unfold mmAddReason
    have := List.mem_map_of_mem
      (fun e : MEntry => if e.question == q then { e with reasons := setAdd e.reasons r } else e) he
    simpa [hq] using this
  have h2 : ({ e with reasons := setAdd e.reasons r, answers := setAdd e.answers a } : MEntry) ∈
      mmAddAnswer (mmAddReason mm q r) q a := by
    unfold mmAddAnswer
    have := List.mem_map_of_mem
      (fun e : MEntry => if e.question == q then { e with answers := setAdd e.answers a } else e) h1
    simpa [hq] using this
  exact ⟨_, h2, hq, mem_setAdd_self _ _, mem_setAdd_self _ _⟩

lemma reconStep_flagged {st : RState} {e : Pair} (hf : e.needsManualReview = true) :
    mmHasData (reconStep st e).manualMap e.question e.answer "Non-standard answer format" := by
  unfold reconStep
  rw [hf]
  simp only [if_true]
  exact mmHasData_establish _ _ (hasEntry_ensure st.manualMap e.question)

lemma reconStep_invalid {st : RState} {e : Pair} (hf : e.needsManualReview = false)
    (hv : validChoice e.answer = false) :
    mmHasData (reconStep st e).manualMap e.question e.answer "Answer outside A-E" := by
  unfold reconStep
  rw [hf, hv]
  simp only [Bool.false_eq_true, if_false, Bool.not_false, if_true]
  exact mmHasData_establish _ _ (hasEntry_ensure st.manualMap e.question)

lemma fold_mem_flagged {l : List Pair} {st : RState} {p : Pair}
    (hp : p ∈ l) (hf : p.needsManualReview = true) :
    mmHasData (l.foldl reconStep st).manualMap p.question p.answer
      "Non-standard answer format" := by
  induction l generalizing st with
  | nil => cases hp
  | cons e l ih =>
    rw [List.foldl_cons]
    rcases List.mem_cons.mp hp with h | h
    · subst h
      exact mmHasData_mono_fold (reconStep_flagged hf)
    · exact ih h

lemma fold_mem_invalid {l : List Pair} {st : RState} {p : Pair}
    (hp : p ∈ l) (hf : p.needsManualReview = false) (hv : validChoice p.answer = false) :
    mmHasData (l.foldl reconStep st).manualMap p.question p.answer "Answer outside A-E" := by
  induction l generalizing st with
  | nil => cases hp
  | cons e l ih =>
    rw [List.foldl_cons]
    rcases List.mem_cons.mp hp with h | h
    · subst h
      exact mmHasData_mono_fold (reconStep_invalid hf hv)
    · exact ih h

/-! ### Helper lemmas: unflagged scanner candidates are single letters -/

lemma latinLetter_asciiUpper {c : Char} (h : letterClassV1 c = true) :
    latinLetter (asciiUpperChar c) = true := by
  unfold letterClassV1 at h
  unfold asciiUpperChar latinLetter
  simp only [Bool.or_eq_true, Bool.and_eq_true, decide_eq_true_eq] at h
  rcases h with ⟨h1, h2⟩ | ⟨h1, h2⟩
  · rw [if_neg (by simp only [Bool.and_eq_true, decide_eq_true_eq, not_and]; omega)]
    simp only [Bool.or_eq_true, Bool.and_eq_true, decide_eq_true_eq]
    omega
  · rw [if_pos (by simp only [Bool.and_eq_true, decide_eq_true_eq]; omega)]
    simp only [Bool.or_eq_true, Bool.and_eq_true, decide_eq_true_eq]
    obtain ⟨t, ht⟩ : ∃ t, c.toNat = t := ⟨_, rfl⟩
    rw [ht] at h1 h2 ⊢
    interval_cases t <;> exact Or.inl (by constructor <;> decide)

lemma classifyV1_not_flagged {q : Nat} {ans : List Char}
    (h : (classifyV1 q ans).needsManualReview = false) :
    isSingleLatinLetter (classifyV1 q ans).answer = true := by
  cases ans with
  | nil =>
    have hh : (classifyV1 q []).needsManualReview = true := rfl
    rw [hh] at h; cases h
  | cons a t =>
    unfold classifyV1 at h ⊢
    dsimp only at h ⊢
    by_cases hc : (letterClassV1 a && t.all tailClassV1) = true
    · rw [if_pos hc] at h ⊢
      dsimp only at h ⊢
      split at h
      · simp at h
      · rename_i hflag
        rw [if_neg hflag]
        unfold isSingleLatinLetter
        dsimp only
        exact latinLetter_asciiUpper (by simp only [Bool.and_eq_true] at hc; exact hc.1)
    · rw [if_neg hc] at h
      dsimp only at h
      simp at h

lemma mem_pairsFromMarkersV1 {src : List Char} {ms : List Marker} {p : Pair}
    (hp : p ∈ pairsFromMarkersV1 src ms) : ∃ m endIdx, p = mkPairV1 src m endIdx := by
  induction ms with
  | nil => simp [pairsFromMarkersV1] at hp
  | cons m ms ih =>
    cases ms with
    | nil =>
      simp only [pairsFromMarkersV1, List.mem_singleton] at hp
      exact ⟨m, src.length, hp⟩
    | cons m2 ms2 =>
      rw [pairsFromMarkersV1] at hp
      rcases List.mem_cons.mp hp with h | h
      · exact ⟨m, m2.idx, h⟩
      · exact ih h

lemma scanV1_not_flagged {text : String} {p : Pair}
    (hp : p ∈ scanAnswerPairsV1 text) (h : p.needsManualReview = false) :
    isSingleLatinLetter p.answer = true := by
  unfold scanAnswerPairsV1 at hp
  dsimp only at hp
  split at hp
  · cases hp
  · obtain ⟨m, endIdx, rfl⟩ := mem_pairsFromMarkersV1 hp
    unfold mkPairV1 at h ⊢
    exact classifyV1_not_flagged h

lemma scanV2Aux_not_flagged {fuel : Nat} {src : List Char} {p : Pair}
    (hp : p ∈ scanV2Aux fuel src) : p.needsManualReview = false := by
  induction fuel generalizing src with
  | zero => cases hp
  | succ fuel ih =>
    cases src with
    | nil => cases hp
    | cons c rest =>
      rw [scanV2Aux] at hp
      cases htm : tryMatchV2 c rest with
      | none => rw [htm] at hp; exact ih hp
      | some mr =>
        rw [htm] at hp
        rcases List.mem_cons.mp hp with h | h
        · rw [h]
        · exact ih h

lemma scanV2_not_flagged {text : String} {p : Pair}
    (hp : p ∈ scanAnswerPairsV2 text) : p.needsManualReview = false := by
  unfold scanAnswerPairsV2 at hp
  dsimp only at hp
  split at hp
  · cases hp
  · exact scanV2Aux_not_flagged ((List.perm_insertionSort _ _).mem_iff.mp hp)

/-! ### Helper lemmas: map lookups and the key-builder fold -/

lemma mapGet_of_not_has {m : JsMap} {q : Nat} (h : mapHas m q = false) :
    mapGet m q = none := by
  have hn : m.find? (fun p => p.1 == q) = none := by
    apply List.find?_eq_none.mpr
    intro p hp hc
    have hm : mapHas m q = true := by
      unfold mapHas
      exact List.any_eq_true.mpr ⟨p, hp, hc⟩
    rw [h] at hm
    exact Bool.false_ne_true hm
  unfold mapGet
  rw [hn]
  rfl

lemma mapGet_of_has {m : JsMap} {q : Nat} (h : mapHas m q = true) :
    ∃ v, mapGet m q = some v := by
  unfold mapHas at h
  obtain ⟨p, hp, hc⟩ := List.any_eq_true.mp h
  have hs : (m.find? (fun p => p.1 == q)).isSome = true := List.find?_isSome.mpr ⟨p, hp, hc⟩
  obtain ⟨x, hx⟩ := Option.isSome_iff_exists.mp hs
  exact ⟨x.2, by unfold mapGet; rw [hx]; rfl⟩

lemma mapGet_append_single (m : JsMap) (k : Nat) (v : String) (q : Nat) :
    mapGet (m ++ [(k, v)]) q =
      match mapGet m q with
      | some x => some x
      | none => if k == q then some v else none := by
  unfold mapGet
  rw [List.find?_append]
  cases hf : m.find? (fun p => p.1 == q) with
  | some x => rfl
  | none =>
    have hsing : List.find? (fun p => p.1 == q) [(k, v)] =
        if (k == q) = true then some (k, v) else none := by
      by_cases hk : (k == q) = true
      · rw [if_pos hk]; exact List.find?_cons_of_pos _ hk
      · rw [if_neg hk]; exact List.find?_cons_of_neg _ (by simpa using hk)
    rw [hsing]
    by_cases hk : (k == q) = true
    · simp [hk]
    · simp [hk]

lemma keyFold_lookup (entries : List Pair) : ∀ (acc : JsMap) (q : Nat),
    mapGet (entries.foldl keyStep acc) q =
      match mapGet acc q with
      | some v => some v
      | none => (entries.find?
          (fun e => e.question == q && validChoice e.answer)).map (·.answer) := by
  induction entries with
  | nil =>
    intro acc q
    cases h : mapGet acc q <;> simp [h]
  | cons e rest ih =>
    intro acc q
    rw [List.foldl_cons, ih (keyStep acc e) q]
    unfold keyStep
    by_cases hv : validChoice e.answer = true
    · simp only [hv, Bool.not_true, Bool.false_eq_true, if_false]
      by_cases hq : (e.question == q) = true
      · have heq : e.question = q := by simpa using hq
        by_cases hh : mapHas acc e.question = true
        · rw [if_pos hh]
          rw [heq] at hh
          obtain ⟨v, hget⟩ := mapGet_of_has hh
          simp [hget]
        · rw [if_neg hh]
          unfold mapSet
          rw [if_neg (by simpa using hh)]
          rw [mapGet_append_single]
          rw [heq] at hh
          have hnone : mapGet acc q = none := mapGet_of_not_has (bool_not_true hh)
          rw [List.find?_cons_of_pos _ (by simp [hq, hv])]
          simp [hnone, hq]
      · rw [List.find?_cons_of_neg _ (by simp [hq])]
        by_cases hh : mapHas acc e.question = true
        · rw [if_pos hh]
        · rw [if_neg hh]
          unfold mapSet
          rw [if_neg (by simpa using hh)]
          rw [mapGet_append_single]
          cases hacc : mapGet acc q with
          | some v => rfl
          | none => simp [hq]
    · have hv' : validChoice e.answer = false := bool_not_true hv
      simp only [hv', Bool.not_false, if_true]
      rw [List.find?_cons_of_neg _ (by simp [hv'])]

/-! ### Helper lemmas: the grading engine's counting -/

lemma tri_count (mqs : List Nat) (am : JsMap) :
    ∀ (key : JsMap) (acc : Nat × List IncRec × List Nat),
    (key.foldl (triStep mqs am) acc).1 + (key.foldl (triStep mqs am) acc).2.1.length +
        (key.foldl (triStep mqs am) acc).2.2.length =
      acc.1 + acc.2.1.length + acc.2.2.length +
        key.countP (fun kp => !mqs.contains kp.1) := by
  intro key
  induction key with
  | nil => intro acc; simp
  | cons kp key ih =>
    intro acc
    rw [List.foldl_cons, ih (triStep mqs am acc kp), List.countP_cons]
    unfold triStep
    by_cases hm : kp.1 ∈ mqs
    · simp [hm]
    · cases hget : mapGet am kp.1 with
      | none => simp [hm, hget]; omega
      | some sa =>
        by_cases h1 : sa = ""
        · simp [hm, hget, h1]; omega
        · by_cases h2 : sa = kp.2
          · simp [hm, hget, if_neg h1, if_pos h2]; omega
          · simp [hm, hget, if_neg h1, if_neg h2]; omega

lemma questions_mmAddAnswer (mm : List MEntry) (q : Nat) (a : String) :
    (mmAddAnswer mm q a).map (·.question) = mm.map (·.question) := by
  unfold mmAddAnswer
  rw [List.map_map]
  apply List.map_congr_left
  intro e _
  dsimp only [Function.comp]
  split <;> rfl

lemma questions_mmAddReason (mm : List MEntry) (q : Nat) (r : String) :
    (mmAddReason mm q r).map (·.question) = mm.map (·.question) := by
  unfold mmAddReason
  rw [List.map_map]
  apply List.map_congr_left
  intro e _
  dsimp only [Function.comp]
  split <;> rfl

lemma not_mem_questions_of_not_has {mm : List MEntry} {q : Nat}
    (h : mmHas mm q = false) : q ∉ mm.map (·.question) := by
  intro hq
  obtain ⟨e, he, heq⟩ := List.mem_map.mp hq
  have : mmHas mm q = true := by
    unfold mmHas
    exact List.any_eq_true.mpr ⟨e, he, by simp [heq]⟩
  rw [h] at this
  exact Bool.false_ne_true this

lemma questions_ensure_nodup {mm : List MEntry} {q : Nat}
    (h : (mm.map (·.question)).Nodup) : ((ensureManual mm q).map (·.question)).Nodup := by
  unfold ensureManual
  split
  · exact h
  · rename_i hh
    rw [List.map_append]
    rw [List.nodup_append]
    refine ⟨h, List.nodup_singleton _, ?_⟩
    intro x hx hx2
    have hxq : x = q := by simpa using hx2
    subst hxq
    exact not_mem_questions_of_not_has (bool_not_true hh) hx

lemma questions_crossStep_nodup {key : JsMap} {st : JsMap × List MEntry}
    {p : Nat × String} (h : (st.2.map (·.question)).Nodup) :
    (((crossStep key st p).2).map (·.question)).Nodup := by
  unfold crossStep
  split
  · exact h
  · dsimp only
    rw [questions_mmAddAnswer, questions_mmAddReason]
    exact questions_ensure_nodup h

lemma questions_crossFold_nodup {key : JsMap} {l : JsMap} {st : JsMap × List MEntry}
    (h : (st.2.map (·.question)).Nodup) :
    (((l.foldl (crossStep key) st).2).map (·.question)).Nodup := by
  induction l generalizing st with
  | nil => exact h
  | cons p l ih => exact ih (questions_crossStep_nodup h)

lemma questions_mmSetFresh_nodup {mm : List MEntry} {item : MEntry}
    (h : (mm.map (·.question)).Nodup) : ((mmSetFresh mm item).map (·.question)).Nodup := by
  unfold mmSetFresh
  split
  · rw [List.map_map]
    have heq : (mm.map ((·.question) ∘ (fun e =>
        if e.question == item.question then
          (⟨item.question, dedupList item.answers, dedupList item.reasons⟩ : MEntry)
        else e))) = mm.map (·.question) := by
      apply List.map_congr_left
      intro e _
      dsimp only [Function.comp]
      split
      · rename_i hq
        exact (beq_iff_eq.mp hq).symm
      · rfl
    rw [heq]
    exact h
  · rename_i hh
    rw [List.map_append, List.nodup_append]
    refine ⟨h, List.nodup_singleton _, ?_⟩
    intro x hx hx2
    have hxq : x = item.question := by simpa using hx2
    subst hxq
    exact not_mem_questions_of_not_has (bool_not_true hh) hx

lemma questions_manualFromList_nodup (l : List MEntry) :
    ((manualFromList l).map (·.question)).Nodup := by
  unfold manualFromList
  have haux : ∀ (l : List MEntry) (acc : List MEntry), (acc.map (·.question)).Nodup →
      ((l.foldl mmSetFresh acc).map (·.question)).Nodup := by
    intro l
    induction l with
    | nil => intro acc h; exact h
    | cons e l ih => intro acc h; exact ih _ (questions_mmSetFresh_nodup h)
  exact haux l [] (by simp)

lemma countP_mem_comm {l1 l2 : List Nat} (h1 : l1.Nodup) (h2 : l2.Nodup) :
    l1.countP (fun x => l2.contains x) = l2.countP (fun x => l1.contains x) := by
  have key : ∀ (a b : List Nat), a.Nodup →
      a.countP (fun x => b.contains x) = (a.toFinset ∩ b.toFinset).card := by
    intro a b ha
    rw [List.countP_eq_length_filter]
    have hnd : (a.filter (fun x => b.contains x)).Nodup := ha.filter _
    rw [← List.toFinset_card_of_nodup hnd]
    congr 1
    rw [List.toFinset_filter]
    ext x
    simp [List.mem_filter]
  rw [key l1 l2 h1, key l2 l1 h2, Finset.inter_comm]

lemma countP_not_split (l : JsMap) (p : Nat × String → Bool) :
    l.countP (fun x => !p x) + l.countP p = l.length := by
  induction l with
  | nil => rfl
  | cons x l ih =>
    by_cases h : p x = true <;>
      simp only [List.countP_cons, h, Bool.not_true, Bool.not_false, List.length_cons,
        if_true, if_false, Bool.false_eq_true] <;> omega

/-! ### Claims -/

/-- C1: for every key map and every student reconciliation result, the grade
report satisfies `correct + incorrectCount + missingCount + (number of
manualReview entries whose question is a key of the key map) = total`, where
`total` is the size of the key map. -/
theorem grade_key_coverage (key sA : JsMap) (sM : List MEntry) (skip : Bool)
    (hk : (key.map Prod.fst).Nodup) :
    (gradeCore key sA sM skip).correct + (gradeCore key sA sM skip).incorrectCount +
      (gradeCore key sA sM skip).missingCount +
      (gradeCore key sA sM skip).manualReview.countP
        (fun e => (key.map Prod.fst).contains e.question) =
    (gradeCore key sA sM skip).total := by
  unfold gradeCore
  dsimp only
  set am0 := mapFromList sA with ham0
  set mm0 := manualFromList sM with hmm0
  set st1 := am0.foldl (crossStep key) (am0, mm0) with hst1
  set mqs := st1.2.map (·.question) with hmqs
  have htri := tri_count mqs st1.1 key (0, [], [])
  dsimp only at htri
  simp only [List.length_nil, Nat.add_zero, Nat.zero_add] at htri
  have hmqsnd : mqs.Nodup := by
    rw [hmqs, hst1]
    exact questions_crossFold_nodup (by rw [hmm0]; exact questions_manualFromList_nodup sM)
  have hperm : ((st1.2.map (fun e =>
      (⟨e.question, sortStrings e.answers, e.reasons⟩ : MEntry))).insertionSort
        (fun a b => a.question ≤ b.question)).countP
        (fun e => (key.map Prod.fst).contains e.question) =
      (st1.2.map (fun e => (⟨e.question, sortStrings e.answers, e.reasons⟩ : MEntry))).countP
        (fun e => (key.map Prod.fst).contains e.question) :=
    (List.perm_insertionSort _ _).countP_eq _
  have hcnt1 : (st1.2.map (fun e =>
      (⟨e.question, sortStrings e.answers, e.reasons⟩ : MEntry))).countP
        (fun e => (key.map Prod.fst).contains e.question) =
      st1.2.countP (fun e => (key.map Prod.fst).contains e.question) := by
    rw [List.countP_map]
    rfl
  have hcnt2 : st1.2.countP (fun e => (key.map Prod.fst).contains e.question) =
      mqs.countP (fun q => (key.map Prod.fst).contains q) := by
    rw [hmqs, List.countP_map]
    rfl
  have hcomm : mqs.countP (fun q => (key.map Prod.fst).contains q) =
      (key.map Prod.fst).countP (fun q => mqs.contains q) :=
    countP_mem_comm hmqsnd hk
  have hcnt3 : (key.map Prod.fst).countP (fun q => mqs.contains q) =
      key.countP (fun kp => mqs.contains kp.1) := by
    rw [List.countP_map]
    rfl
  have hsplit := countP_not_split key (fun kp => mqs.contains kp.1)
  rw [hperm, hcnt1, hcnt2, hcomm, hcnt3]
  omega

/-- C1 witness: the coverage identity instantiated at a concrete key with
distinct questions, a student map with a stray question, and a manual entry. -/
theorem grade_key_coverage_witness :
    (([(1, "A"), (2, "B")] : JsMap).map Prod.fst).Nodup ∧
    ((gradeCore [(1, "A"), (2, "B")] [(1, "A"), (3, "C")]
        [⟨2, ["?"], ["Non-standard answer format"]⟩] false).correct +
      (gradeCore [(1, "A"), (2, "B")] [(1, "A"), (3, "C")]
        [⟨2, ["?"], ["Non-standard answer format"]⟩] false).incorrectCount +
      (gradeCore [(1, "A"), (2, "B")] [(1, "A"), (3, "C")]
        [⟨2, ["?"], ["Non-standard answer format"]⟩] false).missingCount +
      (gradeCore [(1, "A"), (2, "B")] [(1, "A"), (3, "C")]
        [⟨2, ["?"], ["Non-standard answer format"]⟩] false).manualReview.countP
        (fun e => (([(1, "A"), (2, "B")] : JsMap).map Prod.fst).contains e.question) =
      (gradeCore [(1, "A"), (2, "B")] [(1, "A"), (3, "C")]
        [⟨2, ["?"], ["Non-standard answer format"]⟩] false).total) :=
  ⟨by decide, grade_key_coverage _ _ _ _ (by decide)⟩

/-- C2: the claimed partition invariant fails in both versions of the code.
On `"1) a 1) g"` the clean answer for question 1 is recorded first; the later
candidate for the same question is routed to manual review without removing
the clean entry, so question 1 ends up in the clean answers map and in the
manual-review list at once. -/
theorem parse_partition_violated :
    mapGet (parseStudentAnswersV1 "1) a 1) g").answers 1 = some "A" ∧
    ((parseStudentAnswersV1 "1) a 1) g").manualReview.map (·.question)) = [1] ∧
    mapGet (parseStudentAnswersV2 "1) a 1) g").answers 1 = some "A" ∧
    ((parseStudentAnswersV2 "1) a 1) g").manualReview.map (·.question)) = [1] :=
  ⟨rfl, rfl, rfl, rfl⟩

/-- C3 counterexample: the single-regex scanner silently drops a non-letter
token.  On `"1) ?"` the marker `1)` is recognizable (the marker-based scanner
emits a flagged candidate for it), but the regex scanner emits no candidate at
all and the manual-review output is empty, so the token does not surface. -/
theorem regex_scanner_drops_nonletter_token :
    scanAnswerPairsV1 "1) ?" = [⟨1, "?", true⟩] ∧
    scanAnswerPairsV2 "1) ?" = [] ∧
    (parseStudentAnswersV2 "1) ?").manualReview = [] ∧
    (parseStudentAnswersV2 "1) ?").answers = [] :=
  ⟨rfl, rfl, rfl, rfl⟩

/-- C3 as amended: in the marker-based version, every scanned candidate whose
trimmed answer token is not a single Latin letter is emitted flagged for
manual review and surfaces in the manualReview output of parseStudentAnswers
with its raw token and the reason "Non-standard answer format"; the
single-regex version instead emits no candidate for such tokens. -/
theorem marker_scanner_routes_nonletter_tokens (text : String) (p : Pair)
    (hp : p ∈ scanAnswerPairsV1 text) (hl : isSingleLatinLetter p.answer = false) :
    p.needsManualReview = true ∧
    ∃ e, e ∈ (parseStudentAnswersV1 text).manualReview ∧ e.question = p.question ∧
      p.answer ∈ e.answers ∧ "Non-standard answer format" ∈ e.reasons := by
  have hf : p.needsManualReview = true := by
    cases hb : p.needsManualReview with
    | false => rw [scanV1_not_flagged hp hb] at hl; cases hl
    | true => rfl
  exact ⟨hf, @fold_mem_flagged (scanAnswerPairsV1 text) ⟨[], []⟩ p hp hf⟩

/-- C3 witness: the candidate scanned from `"1) ?"` is flagged and surfaces. -/
theorem marker_scanner_routes_nonletter_tokens_witness :
    (⟨1, "?", true⟩ : Pair) ∈ scanAnswerPairsV1 "1) ?" ∧
    isSingleLatinLetter (Pair.answer ⟨1, "?", true⟩) = false ∧
    ((Pair.needsManualReview ⟨1, "?", true⟩) = true ∧
      ∃ e, e ∈ (parseStudentAnswersV1 "1) ?").manualReview ∧
        e.question = (Pair.question ⟨1, "?", true⟩) ∧
        (Pair.answer ⟨1, "?", true⟩) ∈ e.answers ∧
        "Non-standard answer format" ∈ e.reasons) := by
  have hmem : (⟨1, "?", true⟩ : Pair) ∈ scanAnswerPairsV1 "1) ?" := by
    have hs : scanAnswerPairsV1 "1) ?" = [⟨1, "?", true⟩] := rfl
    rw [hs]
    exact List.mem_singleton_self _
  exact ⟨hmem, rfl, marker_scanner_routes_nonletter_tokens "1) ?" _ hmem rfl⟩

/-- C4 counterexample: the marker-based version of parseStudentAnswers finds
nothing in `"6d\n7b\n8c\n9a\n10c"` (its marker regex requires a punctuation
separator after the number), so its clean answers map is empty rather than
containing 6:D, 7:B, 8:C, 9:A, 10:C. -/
theorem marker_scanner_misses_no_separator_input :
    (parseStudentAnswersV1 "6d\n7b\n8c\n9a\n10c").answers = [] ∧
    mapGet (parseStudentAnswersV1 "6d\n7b\n8c\n9a\n10c").answers 6 = none :=
  ⟨rfl, rfl⟩

/-- C4 as amended: the single-regex version of parseStudentAnswers parses
`"6d\n7b\n8c\n9a\n10c"` to a clean answers map containing exactly 6:D, 7:B,
8:C, 9:A, 10:C (and nothing under manual review); the marker-based version
returns an empty map on the same input. -/
theorem regex_scanner_parses_no_separator_input :
    (parseStudentAnswersV2 "6d\n7b\n8c\n9a\n10c").answers =
      [(6, "D"), (7, "B"), (8, "C"), (9, "A"), (10, "C")] ∧
    (parseStudentAnswersV2 "6d\n7b\n8c\n9a\n10c").manualReview = [] :=
  ⟨rfl, rfl⟩

/-- C5: on `"1) a 1) b"` both versions return no clean entry for question 1
and a manual-review list whose single entry has question 1, answers A and B,
and reason "Duplicate answers provided". -/
theorem duplicate_answers_to_manual_review :
    parseStudentAnswersV1 "1) a 1) b" =
      ⟨[], [⟨1, ["A", "B"], ["Duplicate answers provided"]⟩]⟩ ∧
    parseStudentAnswersV2 "1) a 1) b" =
      ⟨[], [⟨1, ["A", "B"], ["Duplicate answers provided"]⟩]⟩ :=
  ⟨rfl, rfl⟩

/-- C6 counterexample: in the marker-based version, `"4) g"` is routed to
manual review with reason "Non-standard answer format" and the raw lowercase
token "g", not with reason "Answer outside A-E" and "G" as the claim states
(its letter regex only accepts A-E, so `g` never reaches the choice check). -/
theorem marker_scanner_invalid_choice_diverges :
    (parseStudentAnswersV1 "4) g").answers = [] ∧
    (parseStudentAnswersV1 "4) g").manualReview =
      [⟨4, ["g"], ["Non-standard answer format"]⟩] ∧
    ¬ ∃ e, e ∈ (parseStudentAnswersV1 "4) g").manualReview ∧
        "G" ∈ e.answers ∧ "Answer outside A-E" ∈ e.reasons := by
  refine ⟨rfl, rfl, ?_⟩
  rintro ⟨e, he, hG, hr⟩
  have hlist : (parseStudentAnswersV1 "4) g").manualReview =
      [⟨4, ["g"], ["Non-standard answer format"]⟩] := rfl
  rw [hlist] at he
  rw [List.mem_singleton.mp he] at hG
  exact absurd hG (by decide)

/-- C6 as amended: in the single-regex version, `"4) g"` yields no clean entry
for question 4 and a manual-review entry with question 4, answer "G" and
reason "Answer outside A-E"; in general every candidate that version scans
whose letter is outside A-E surfaces in manual review with that reason.  The
marker-based version instead flags such tokens as "Non-standard answer
format" with the raw lowercase letter. -/
theorem invalid_choice_routed_outside_a_to_e :
    (parseStudentAnswersV2 "4) g").answers = [] ∧
    (parseStudentAnswersV2 "4) g").manualReview = [⟨4, ["G"], ["Answer outside A-E"]⟩] ∧
    ∀ (text : String) (p : Pair), p ∈ scanAnswerPairsV2 text →
      validChoice p.answer = false →
      ∃ e, e ∈ (parseStudentAnswersV2 text).manualReview ∧ e.question = p.question ∧
        p.answer ∈ e.answers ∧ "Answer outside A-E" ∈ e.reasons := by
  refine ⟨rfl, rfl, ?_⟩
  intro text p hp hv
  exact fold_mem_invalid hp (scanV2_not_flagged hp) hv

/-- C6 witness: the candidate scanned from `"4) g"` is routed with the
"Answer outside A-E" reason. -/
theorem invalid_choice_routed_outside_a_to_e_witness :
    (⟨4, "G", false⟩ : Pair) ∈ scanAnswerPairsV2 "4) g" ∧
    validChoice (Pair.answer ⟨4, "G", false⟩) = false ∧
    ∃ e, e ∈ (parseStudentAnswersV2 "4) g").manualReview ∧
      e.question = (Pair.question ⟨4, "G", false⟩) ∧
      (Pair.answer ⟨4, "G", false⟩) ∈ e.answers ∧
      "Answer outside A-E" ∈ e.reasons := by
  have hmem : (⟨4, "G", false⟩ : Pair) ∈ scanAnswerPairsV2 "4) g" := by
    have hs : scanAnswerPairsV2 "4) g" = [⟨4, "G", false⟩] := rfl
    rw [hs]
    exact List.mem_singleton_self _
  exact ⟨hmem, rfl, invalid_choice_routed_outside_a_to_e.2.2 "4) g" _ hmem rfl⟩

/-- C7: for every key and student reconciliation result, the report satisfies
`total` = key size, `denominator` = `total - missingCount` when `skipMissing`
and `total` otherwise, and `percent` = `correct / denominator * 100` when the
denominator is positive and `0` otherwise; `missingCount ≤ total` keeps the
denominator non-negative, and the zero-denominator guard means the percentage
is always a well-defined rational, never an error. -/
theorem grade_report_formulas (key sA : JsMap) (sM : List MEntry) (skip : Bool) :
    (gradeCore key sA sM skip).total = key.length ∧
    (gradeCore key sA sM skip).missingCount ≤ (gradeCore key sA sM skip).total ∧
    (gradeCore key sA sM skip).denominator =
      (if skip then ((gradeCore key sA sM skip).total : Int) -
          ((gradeCore key sA sM skip).missingCount : Int)
        else ((gradeCore key sA sM skip).total : Int)) ∧
    (gradeCore key sA sM skip).percent =
      (if 0 < (gradeCore key sA sM skip).denominator then
          ((gradeCore key sA sM skip).correct : ℚ) /
            (((gradeCore key sA sM skip).denominator : Int) : ℚ) * 100
        else 0) := by
  refine ⟨rfl, ?_, rfl, rfl⟩
  unfold gradeCore
  dsimp only
  set am0 := mapFromList sA with ham0
  set mm0 := manualFromList sM with hmm0
  set st1 := am0.foldl (crossStep key) (am0, mm0) with hst1
  set mqs := st1.2.map (·.question) with hmqs
  have htri := tri_count mqs st1.1 key (0, [], [])
  dsimp only at htri
  simp only [List.length_nil, Nat.add_zero, Nat.zero_add] at htri
  have hle := List.countP_le_length (p := fun kp => !mqs.contains kp.1) (l := key)
  omega

/-- C8: grade raises an error, and produces no report, whenever its key
argument is not a map or its studentAnswers argument is not the reconciler's
output shape (a record with an answers map and a manualReview list); a
malformed call is never coerced into a report. -/
theorem grade_rejects_malformed (key sa : Dyn) (skip : Bool)
    (h : ¬ isKeyMapShape key ∨ ¬ isReconcilerOutputShape sa) :
    ∃ msg, gradeChecked key sa skip = Except.error msg := by
  cases key with
  | dmap km =>
    have hs : ¬ isReconcilerOutputShape sa := by
      rcases h with h | h
      · exact absurd ⟨km, rfl⟩ h
      · exact h
    cases sa with
    | drecord af mf =>
      match af, mf with
      | none, _ => exact ⟨_, rfl⟩
      | some (.drecord _ _), _ => exact ⟨_, rfl⟩
      | some (.darr _), _ => exact ⟨_, rfl⟩
      | some (.dstr _), _ => exact ⟨_, rfl⟩
      | some (.dnum _), _ => exact ⟨_, rfl⟩
      | some .dnull, _ => exact ⟨_, rfl⟩
      | some (.dmap am), none => exact ⟨_, rfl⟩
      | some (.dmap am), some (.dmap _) => exact ⟨_, rfl⟩
      | some (.dmap am), some (.drecord _ _) => exact ⟨_, rfl⟩
      | some (.dmap am), some (.dstr _) => exact ⟨_, rfl⟩
      | some (.dmap am), some (.dnum _) => exact ⟨_, rfl⟩
      | some (.dmap am), some .dnull => exact ⟨_, rfl⟩
      | some (.dmap am), some (.darr l) => exact absurd ⟨am, l, rfl⟩ hs
    | dmap m => exact ⟨_, rfl⟩
    | darr l => exact ⟨_, rfl⟩
    | dstr s => exact ⟨_, rfl⟩
    | dnum n => exact ⟨_, rfl⟩
    | dnull => exact ⟨_, rfl⟩
  | drecord af mf => exact ⟨_, rfl⟩
  | darr l => exact ⟨_, rfl⟩
  | dstr s => exact ⟨_, rfl⟩
  | dnum n => exact ⟨_, rfl⟩
  | dnull => exact ⟨_, rfl⟩

/-- C8 witness: calling grade with raw text for both arguments errors. -/
theorem grade_rejects_malformed_witness :
    (¬ isKeyMapShape (Dyn.dstr "1. A") ∨ ¬ isReconcilerOutputShape (Dyn.dstr "1) a")) ∧
    ∃ msg, gradeChecked (Dyn.dstr "1. A") (Dyn.dstr "1) a") false = Except.error msg := by
  have hnk : ¬ isKeyMapShape (Dyn.dstr "1. A") := by
    rintro ⟨km, hk⟩
    exact Dyn.noConfusion hk
  exact ⟨Or.inl hnk, grade_rejects_malformed _ _ false (Or.inl hnk)⟩

/-- C9: for every key text and question number, in both versions, parseKeyText
records exactly the answer of the first scanned candidate for that question
whose answer is a valid choice in A-E; later duplicates and invalid-choice
candidates are silently ignored. -/
theorem key_first_valid_occurrence_wins (text : String) (q : Nat) :
    mapGet (parseKeyTextV1 text) q =
      ((scanAnswerPairsV1 text).find?
        (fun e => e.question == q && validChoice e.answer)).map (·.answer) ∧
    mapGet (parseKeyTextV2 text) q =
      ((scanAnswerPairsV2 text).find?
        (fun e => e.question == q && validChoice e.answer)).map (·.answer) := by
  constructor
  · unfold parseKeyTextV1 keyFromEntries
    rw [keyFold_lookup]
    rfl
  · unfold parseKeyTextV2 keyFromEntries
    rw [keyFold_lookup]
    rfl

/-- C10 counterexample: the two scanner implementations are not extensionally
equal, refuted at the input `"6d"`. -/
theorem scanners_not_extensionally_equal :
    ¬ ∀ text : String, scanAnswerPairsV1 text = scanAnswerPairsV2 text ∧
        parseStudentAnswersV1 text = parseStudentAnswersV2 text := by
  intro h
  have h6 : scanAnswerPairsV1 "6d" = scanAnswerPairsV2 "6d" := (h "6d").1
  have h1 : scanAnswerPairsV1 "6d" = [] := rfl
  have h2 : scanAnswerPairsV2 "6d" = [⟨6, "D", false⟩] := rfl
  rw [h1, h2] at h6
  cases h6

/-- C10 as amended: the two implementations of scanAnswerPairs differ.  On
`"6d"` the marker-based scanner produces no candidates while the single-regex
scanner produces the candidate (6, D, unflagged), so the two corresponding
parseStudentAnswers functions disagree as well. -/
theorem scanners_differ_on_no_separator_input :
    scanAnswerPairsV1 "6d" = [] ∧ scanAnswerPairsV2 "6d" = [⟨6, "D", false⟩] ∧
    parseStudentAnswersV1 "6d" ≠ parseStudentAnswersV2 "6d" := by
  refine ⟨rfl, rfl, ?_⟩
  intro h
  have h1 : parseStudentAnswersV1 "6d" = ⟨[], []⟩ := rfl
  have h2 : parseStudentAnswersV2 "6d" = ⟨[(6, "D")], []⟩ := rfl
  rw [h1, h2] at h
  have h3 : ([] : JsMap) = [(6, "D")] := congrArg ParseResult.answers h
  cases h3
